import Mathlib

/-
Shallow embedding of src/Strategies_Skeleton_Final.py.

The script builds an equity universe from three index sources, assembles
per-ticker financial statement tables into one long-form table, evaluates a
ten-criterion boolean growth filter over that table, and computes
market-cap-proportional weights for the selected tickers.

Modelling conventions:
- pandas numeric cells are rationals; a missing cell is NaN.  The value
  domain PVal has NaN and the two infinities because float division by zero
  produces an infinity (numpy semantics), and comparisons against NaN are
  false.  Thresholds written as decimal literals in the source (0.10, 0.2,
  0.15) are the exact rationals 1/10, 1/5, 3/20.
- df.shift(1) is the elementwise previous row of the whole frame, with a
  NaN row in front, exactly as pandas computes it (no grouping by ticker).
- Python set iteration order is unspecified; list(set(...)) is modelled as
  first-occurrence deduplication (pyDedup).  Every property proved below is
  insensitive to the order of the deduplicated list.
- A Python dict keyed by ticker with first-insertion order is modelled as
  first-occurrence deduplication of the key list followed by a filterMap.
- Code that can raise returns Except; an uncaught Python exception is an
  error value.
-/

namespace Strategies

/- First-occurrence deduplication: the order-faithful model of iterating a
Python dict built by insertion, and an order-fixing model of list(set(xs)). -/
def pyDedupGo (seen : List String) : List String → List String
  | [] => []
  | t :: ts => if t ∈ seen then pyDedupGo seen ts else t :: pyDedupGo (t :: seen) ts

def pyDedup (l : List String) : List String := pyDedupGo [] l

/- Value domain of a pandas float cell. -/
inductive PVal where
  | nan
  | posInf
  | negInf
  | num (q : ℚ)
deriving DecidableEq

/- Division of two possibly-missing cells as numpy evaluates it: NaN
propagates, x/0 is an infinity for x nonzero and NaN for 0/0. -/
def pdiv : Option ℚ → Option ℚ → PVal
  | some a, some b =>
      if b = 0 then (if a = 0 then .nan else if 0 < a then .posInf else .negInf)
      else .num (a / b)
  | _, _ => .nan

/- Comparison of a pandas value against a finite constant: any comparison
with NaN is false. -/
def pgt : PVal → ℚ → Bool
  | .nan, _ => false
  | .posInf, _ => true
  | .negInf, _ => false
  | .num a, c => decide (c < a)

def plt : PVal → ℚ → Bool
  | .nan, _ => false
  | .posInf, _ => false
  | .negInf, _ => true
  | .num a, c => decide (a < c)

/- Comparison of two possibly-missing cells: false when either is missing. -/
def ogt : Option ℚ → Option ℚ → Bool
  | some a, some b => decide (b < a)
  | _, _ => false

def olt : Option ℚ → Option ℚ → Bool
  | some a, some b => decide (a < b)
  | _, _ => false

/- Scalar multiple of a possibly-missing cell (0.1 * df[...]). -/
def omul (c : ℚ) : Option ℚ → Option ℚ
  | some a => some (c * a)
  | none => none

/- One row of the long-form statement table final_df: one reporting period of
one ticker, with the eleven line items the growth filter reads.  A missing
line item is none. -/
structure Row where
  ticker : String
  period : String
  totalRevenue : Option ℚ := none
  operatingIncome : Option ℚ := none
  ebitda : Option ℚ := none
  dilutedEPS : Option ℚ := none
  netDebt : Option ℚ := none
  stockholdersEquity : Option ℚ := none
  interestExpense : Option ℚ := none
  freeCashFlow : Option ℚ := none
  netIncome : Option ℚ := none
  sga : Option ℚ := none
  capex : Option ℚ := none
deriving DecidableEq

/- The conjunction of the ten criteria of get_growth_filter for one row,
given the previous row of the frame (none for the very first row).  The
order of conjuncts mirrors the source. -/
def rowPasses (prev : Option Row) (r : Row) : Bool :=
  ogt r.totalRevenue (prev.bind Row.totalRevenue)
  && pgt (pdiv r.operatingIncome r.totalRevenue) (1/10)
  && pgt (pdiv r.ebitda r.totalRevenue) (1/10)
  && ogt r.dilutedEPS (prev.bind Row.dilutedEPS)
  && plt (pdiv r.netDebt r.stockholdersEquity) 1
  && olt r.interestExpense (omul (1/10) r.operatingIncome)
  && ogt r.freeCashFlow (some 0)
  && pgt (pdiv r.netIncome r.stockholdersEquity) (3/20)
  && plt (pdiv r.sga r.totalRevenue) (1/5)
  && plt (pdiv r.capex r.totalRevenue) (1/5)

/- get_growth_filter: each row is compared against df.shift(1), the previous
row of the whole frame regardless of ticker, with NaN in front of row 0. -/
def get_growth_filter (rows : List Row) : List Bool :=
  List.zipWith rowPasses (none :: rows.map some) rows

/- selected_tickers = final_df[growth_filter].Ticker.unique(): the tickers of
the rows the filter keeps, first occurrence first, without duplicates. -/
def passingTickers (rows : List Row) : List String :=
  (rows.zip (get_growth_filter rows)).filterMap
    (fun rb => if rb.2 then some rb.1.ticker else none)

def selected_tickers (rows : List Row) : List String :=
  pyDedup (passingTickers rows)

/- merge_and_deduplicate_dynamic(*lists) = list(set().union(*lists)).  The
set iteration order is unspecified; it is fixed here as first occurrence. -/
def merge_and_deduplicate_dynamic (lists : List (List String)) : List String :=
  pyDedup lists.flatten

/- Character-level model of s.replace(".", "-") on a Python string. -/
def replaceDotDash (t : String) : String :=
  String.mk (t.data.map (fun c => if c = '.' then '-' else c))

/- The module-level normalization: ticker.replace(".", "-") exactly when the
raw ticker is one of the two hardcoded cases, otherwise unchanged. -/
def normalizeTicker (t : String) : String :=
  if t = "BRK.B" ∨ t = "BF.B" then replaceDotDash t else t

/- The value of the module-level variable tickers after line 280: merge the
source lists, then map the normalization over the deduplicated result. -/
def normalizedUniverse (lists : List (List String)) : List String :=
  (merge_and_deduplicate_dynamic lists).map normalizeTicker

/- Weight calculator.  stock.info.get("marketCap") is a lookup in the
provider response, modelled as a function to Option; the test
"if market_cap:" is Python truthiness, excluding both None and 0. -/
def capEntry (info : String → Option ℤ) (t : String) : Option (String × ℤ) :=
  match info t with
  | some c => if c = 0 then none else some (t, c)
  | none => none

/- The market_caps dict after the loop: keys in first-insertion order, a
duplicate ticker overwrites with the identical value. -/
def includedCaps (info : String → Option ℤ) (tickers : List String) :
    List (String × ℤ) :=
  (pyDedup tickers).filterMap (capEntry info)

def totalCap (info : String → Option ℤ) (tickers : List String) : ℤ :=
  ((includedCaps info tickers).map Prod.snd).sum

/- round(x, 2) in Python: round half to even at the second decimal place. -/
def roundHalfEven (x : ℚ) : ℤ :=
  if Int.fract x = 1/2 then (if Even ⌊x⌋ then ⌊x⌋ else ⌊x⌋ + 1) else round x

def round2 (x : ℚ) : ℚ := (roundHalfEven (x * 100) : ℚ) / 100

/- calculate_market_cap_weights: the comprehension divides once per dict
entry, so an empty dict performs no division and returns []; a nonempty dict
with total 0 raises ZeroDivisionError at the first entry. -/
def calculate_market_cap_weights (info : String → Option ℤ)
    (tickers : List String) : Except String (List (String × ℚ)) :=
  let caps := includedCaps info tickers
  if caps.isEmpty then .ok []
  else if totalCap info tickers = 0 then .error "ZeroDivisionError"
  else .ok (caps.map (fun e => (e.1, round2 ((e.2 : ℚ) / (totalCap info tickers : ℚ) * 100))))

/- Statement assembler.  A provider statement table is a list of line-item
rows, each carrying its (period, value) cells; a missing cell is absent. -/
abbrev Stmt : Type := List (String × List (String × ℚ))

/- One row of the combined long-form frame before column selection: the
owning ticker, the reporting period, and the line-item cells present. -/
structure LongRow where
  ticker : String
  period : String
  values : List (String × ℚ)
deriving DecidableEq

/- The period columns of pd.concat([pnl, bs, cf]), in order of first
appearance across the stacked line-item rows. -/
def allPeriods (fs : List (String × List (String × ℚ))) : List String :=
  pyDedup ((fs.map (fun r => r.2.map Prod.fst)).flatten)

/- For one ticker: concatenate the three statements along the line-item
axis, transpose so periods become rows, and tag each row with the ticker. -/
def tickerRows (symbol : String) (pnl bs cf : Stmt) : List LongRow :=
  let fs : List (String × List (String × ℚ)) := pnl ++ bs ++ cf
  (allPeriods fs).map (fun p =>
    { ticker := symbol, period := p,
      values := fs.filterMap (fun row => (List.lookup p row.2).map (fun v => (row.1, v))) })

/- The three statement tables the provider returns for one ticker. -/
structure TickerStatements where
  symbol : String
  financials : Stmt
  balancesheet : Stmt
  cashflow : Stmt

/- fetch_fundamental_data: stack the per-ticker transposed tables. -/
def fetch_fundamental_data (input : List TickerStatements) : List LongRow :=
  (input.map (fun ts => tickerRows ts.symbol ts.financials ts.balancesheet ts.cashflow)).flatten

/- Ticker sources.  A fetch either raises inside requests.get, or yields a
status code and the relevant scraped table (None when the page lacks it);
a table is its rows, each row its stripped cell texts. -/
inductive FetchResult where
  | fail
  | ok (status : Nat) (table : Option (List (List String)))

/- fetch_sp500_tickers has no try/except: a network failure propagates,
raise_for_status() raises on a 4xx/5xx status, a missing table raises
AttributeError on table.find_all, and a row without cells raises IndexError
at row.find_all("td")[0]. -/
def fetch_sp500_tickers : FetchResult → Except String (List String)
  | .fail => .error "ConnectionError"
  | .ok status table =>
    if 400 ≤ status then .error "HTTPError"
    else match table with
      | none => .error "AttributeError"
      | some rows => (rows.drop 1).mapM (fun cells =>
          match cells.head? with
          | some c => Except.ok c
          | none => Except.error "IndexError")

/- Body of the row loop of get_dow_jones_tickers: rows without cells are
skipped, cells[1] on a one-cell row raises IndexError (returned as none,
caught by the enclosing except). -/
def dowExtract : List (List String) → Option (List String)
  | [] => some []
  | cells :: rest =>
    if cells.isEmpty then dowExtract rest
    else match cells.get? 1 with
      | some t => (dowExtract rest).map (fun ts => t :: ts)
      | none => none

/- get_dow_jones_tickers wraps everything in try/except returning [] on any
exception, returns [] on a non-200 status, and [] when no table matches. -/
def get_dow_jones_tickers : FetchResult → List String
  | .fail => []
  | .ok status table =>
    if status = 200 then
      match table with
      | none => []
      | some rows =>
        match dowExtract (rows.drop 1) with
        | some ts => ts
        | none => []
    else []

/- Concrete long-form tables used to evaluate the growth filter.  Rows rowA1,
rowA2 are ticker A with rising revenue and EPS; rowB1 is the sole period of
ticker B, whose fundamentals satisfy criteria 2 through 10 outright. -/
def rowA1 : Row := { ticker := "A", period := "P1", totalRevenue := some 100, dilutedEPS := some 1 }

def rowA2 : Row := { ticker := "A", period := "P2", totalRevenue := some 150, dilutedEPS := some 2 }

def rowB1 : Row :=
  { ticker := "B", period := "P1", totalRevenue := some 500, operatingIncome := some 100,
    ebitda := some 100, dilutedEPS := some 5, netDebt := some 50,
    stockholdersEquity := some 100, interestExpense := some 5, freeCashFlow := some 10,
    netIncome := some 20, sga := some 50, capex := some 50 }

def rowC1 : Row := { ticker := "A", period := "P1", totalRevenue := some 200, dilutedEPS := some 1 }

def rowD1 : Row :=
  { ticker := "B", period := "P1", totalRevenue := some 600, operatingIncome := some 120,
    ebitda := some 120, dilutedEPS := some 3, netDebt := some 60,
    stockholdersEquity := some 120, interestExpense := some 6, freeCashFlow := some 12,
    netIncome := some 24, sga := some 60, capex := some 60 }

/- Ticker A with a second period whose Stockholders Equity is exactly 0:
Net Debt / 0 is negative infinity (criterion 5 passes) and
Net Income / 0 is positive infinity (criterion 8 passes). -/
def rowE1 : Row := { ticker := "A", period := "P1", totalRevenue := some 100, dilutedEPS := some 1 }

def rowE2 : Row :=
  { ticker := "A", period := "P2", totalRevenue := some 500, operatingIncome := some 100,
    ebitda := some 100, dilutedEPS := some 5, netDebt := some (-50),
    stockholdersEquity := some 0, interestExpense := some 5, freeCashFlow := some 10,
    netIncome := some 20, sga := some 50, capex := some 50 }

/- A row whose Operating Income cell is missing. -/
def rowNullOpInc : Row := { ticker := "A", period := "P1", totalRevenue := some 100 }

/- Market caps for the worked example of the weight calculator. -/
def capsAB : String → Option ℤ :=
  fun t => if t = "A" then some 100 else if t = "B" then some 300 else none

/- Provider statements for the single-ticker assembler example: one period P
with Total Revenue 100 and Operating Income 20 on the income statement. -/
def statementsX : TickerStatements :=
  { symbol := "X",
    financials := [("Total Revenue", [("P", 100)]), ("Operating Income", [("P", 20)])],
    balancesheet := [],
    cashflow := [] }

/- Helper lemmas about the first-occurrence deduplication. -/
theorem mem_pyDedupGo (a : String) : ∀ (l seen : List String),
    a ∈ pyDedupGo seen l ↔ (a ∈ l ∧ a ∉ seen) := by
  intro l
  induction l with
  | nil => intro seen; simp [pyDedupGo]
  | cons t ts ih =>
    intro seen
    by_cases ht : t ∈ seen
    · rw [pyDedupGo, if_pos ht, ih]
      constructor
      · rintro ⟨h1, h2⟩; exact ⟨List.mem_cons_of_mem _ h1, h2⟩
      · rintro ⟨h1, h2⟩
        rcases List.mem_cons.mp h1 with h | h
        · exact absurd (h ▸ ht) h2
        · exact ⟨h, h2⟩
    · rw [pyDedupGo, if_neg ht]
      constructor
      · intro h
        rcases List.mem_cons.mp h with h | h
        · exact ⟨h ▸ List.mem_cons_self t ts, h ▸ ht⟩
        · rcases (ih _).mp h with ⟨h1, h2⟩
          exact ⟨List.mem_cons_of_mem _ h1, fun hs => h2 (List.mem_cons_of_mem _ hs)⟩
      · rintro ⟨h1, h2⟩
        rcases List.mem_cons.mp h1 with h | h
        · exact h ▸ List.mem_cons_self _ _
        · by_cases hat : a = t
          · exact hat ▸ List.mem_cons_self _ _
          · exact List.mem_cons_of_mem _ ((ih _).mpr ⟨h, by simp [hat, h2]⟩)

theorem mem_pyDedup (a : String) (l : List String) : a ∈ pyDedup l ↔ a ∈ l := by
  rw [pyDedup, mem_pyDedupGo]; simp

theorem nodup_pyDedup (l : List String) : (pyDedup l).Nodup := by
  have hgo : ∀ (m seen : List String), (pyDedupGo seen m).Nodup := by
    intro m
    induction m with
    | nil => intro seen; simp [pyDedupGo]
    | cons t ts ih =>
      intro seen
      by_cases ht : t ∈ seen
      · rw [pyDedupGo, if_pos ht]; exact ih _
      · rw [pyDedupGo, if_neg ht]
        refine List.nodup_cons.mpr ⟨fun hmem => ?_, ih _⟩
        exact ((mem_pyDedupGo _ _ _).mp hmem).2 (List.mem_cons_self _ _)
  exact hgo l []

theorem pyDedupGo_filter (p : String → Bool) :
    ∀ (l seen1 seen2 : List String),
      (∀ a, p a = true → (a ∈ seen1 ↔ a ∈ seen2)) →
      pyDedupGo seen1 (l.filter p) = (pyDedupGo seen2 l).filter p := by
  intro l
  induction l with
  | nil => intro s1 s2 _; simp [pyDedupGo]
  | cons t ts ih =>
    intro s1 s2 hseen
    by_cases hp : p t = true
    · rw [List.filter_cons_of_pos hp, pyDedupGo, pyDedupGo]
      by_cases ht : t ∈ s2
      · rw [if_pos ((hseen t hp).mpr ht), if_pos ht]
        exact ih s1 s2 hseen
      · rw [if_neg (fun h => ht ((hseen t hp).mp h)), if_neg ht,
          List.filter_cons_of_pos hp]
        congr 1
        refine ih _ _ (fun a ha => ?_)
        simp [List.mem_cons, hseen a ha]
    · rw [List.filter_cons_of_neg (by simp [hp]), pyDedupGo]
      by_cases ht : t ∈ s2
      · rw [if_pos ht]; exact ih s1 s2 hseen
      · rw [if_neg ht, List.filter_cons_of_neg (by simp [hp])]
        refine ih _ _ (fun a ha => ?_)
        have hat : a ≠ t := fun h => by rw [h] at ha; exact absurd ha (by simp [hp])
        simp [List.mem_cons, hat, hseen a ha]

theorem pyDedup_filter (p : String → Bool) (l : List String) :
    pyDedup (l.filter p) = (pyDedup l).filter p :=
  pyDedupGo_filter p l [] [] (fun _ _ => Iff.rfl)

theorem filterMap_filter_of_none {α β : Type} (f : α → Option β) (p : α → Bool)
    (h : ∀ a, p a = false → f a = none) :
    ∀ l : List α, (l.filter p).filterMap f = l.filterMap f := by
  intro l
  induction l with
  | nil => rfl
  | cons a as ih =>
    by_cases hp : p a = true
    · rw [List.filter_cons_of_pos hp, List.filterMap_cons, List.filterMap_cons, ih]
    · have hp0 : p a = false := Bool.eq_false_iff.mpr hp
      rw [List.filter_cons_of_neg (by simp [hp0]), List.filterMap_cons, h a hp0, ih]

/- Helper lemmas about the growth filter. -/
theorem pdiv_none_left (b : Option ℚ) : pdiv none b = .nan := by cases b <;> rfl

theorem pdiv_none_right (a : Option ℚ) : pdiv a none = .nan := by cases a <;> rfl

/- A row with a missing numerator or denominator in any of the six ratio
criteria fails the conjunction, whatever the previous row holds. -/
theorem rowPasses_null (prev : Option Row) (r : Row)
    (h : r.operatingIncome = none ∨ r.ebitda = none ∨ r.netDebt = none ∨
      r.netIncome = none ∨ r.sga = none ∨ r.capex = none ∨
      r.totalRevenue = none ∨ r.stockholdersEquity = none) :
    rowPasses prev r = false := by
  rcases h with h | h | h | h | h | h | h | h <;>
    simp [rowPasses, h, pdiv_none_left, pdiv_none_right, pgt, plt]

theorem getD_zipWith_rowPasses :
    ∀ (prevs : List (Option Row)) (rows : List Row) (i : ℕ),
      i < rows.length → i < prevs.length →
      (List.zipWith rowPasses prevs rows).getD i true
        = rowPasses (prevs.getD i none) (rows.getD i { ticker := "", period := "" }) := by
  intro prevs
  induction prevs with
  | nil => intro rows i h1 h2; simp at h2
  | cons p ps ih =>
    intro rows i h1 h2
    cases rows with
    | nil => simp at h1
    | cons r rs =>
      cases i with
      | zero => simp [List.zipWith]
      | succ n =>
        simp only [List.zipWith, List.getD_cons_succ]
        exact ih rs n (by simpa using h1) (by simpa using h2)

/- Helper lemmas about the weight calculator. -/
theorem capEntry_eq_some (info : String → Option ℤ) (t : String) (e : String × ℤ)
    (h : capEntry info t = some e) : e.1 = t ∧ info t = some e.2 ∧ e.2 ≠ 0 := by
  unfold capEntry at h
  cases hi : info t with
  | none => rw [hi] at h; simp at h
  | some c =>
    rw [hi] at h
    dsimp only at h
    by_cases hc : c = 0
    · rw [if_pos hc] at h; simp at h
    · rw [if_neg hc] at h
      cases h
      exact ⟨rfl, rfl, hc⟩

theorem mem_includedCaps (info : String → Option ℤ) (tickers : List String)
    (t : String) (c : ℤ) (ht : t ∈ tickers) (hc : info t = some c) (hc0 : c ≠ 0) :
    (t, c) ∈ includedCaps info tickers := by
  rw [includedCaps]
  refine List.mem_filterMap.mpr ⟨t, (mem_pyDedup t tickers).mpr ht, ?_⟩
  rw [capEntry, hc]
  dsimp only
  rw [if_neg hc0]

/-- Claim C1 (refuted, code bug): the prior-period comparisons were claimed
never to cross a ticker boundary, but df.shift(1) is taken over the whole
frame.  On the table [A-P1, A-P2, B-P1] the single row of ticker B screens
true because its revenue 500 and EPS 5 are compared against the A-P2 values
150 and 2; on the table holding only the B row, the same row screens false.
So the first row of ticker B is compared against the last row of ticker A. -/
theorem growth_lag_crosses_ticker_boundary :
    rowA2.ticker = "A" ∧ rowB1.ticker = "B"
    ∧ get_growth_filter [rowA1, rowA2, rowB1] = [false, false, true]
    ∧ get_growth_filter [rowB1] = [false] := by
  refine ⟨rfl, rfl, ?_, ?_⟩
  · norm_num [get_growth_filter, rowPasses, rowA1, rowA2, rowB1, ogt, olt, pgt, plt,
      pdiv, omul, Option.bind]
  · norm_num [get_growth_filter, rowPasses, rowB1, ogt, olt, pgt, plt, pdiv, omul,
      Option.bind]

/-- Claim C2 (refuted, code bug): the earliest period of a ticker was claimed
always to screen false, but on the table [A-P1, B-P1] the earliest (and only)
period row of ticker B screens true, its lag supplied by the A row; alone in
the table the same row screens false. -/
theorem growth_first_period_screens_true :
    rowC1.ticker = "A" ∧ rowD1.ticker = "B"
    ∧ get_growth_filter [rowC1, rowD1] = [false, true]
    ∧ get_growth_filter [rowD1] = [false] := by
  refine ⟨rfl, rfl, ?_, ?_⟩
  · norm_num [get_growth_filter, rowPasses, rowC1, rowD1, ogt, olt, pgt, plt,
      pdiv, omul, Option.bind]
  · norm_num [get_growth_filter, rowPasses, rowD1, ogt, olt, pgt, plt, pdiv, omul,
      Option.bind]

/-- Claim C3 counterexample: a row whose Stockholders Equity is exactly 0 was
claimed to screen false, but row rowE2 (equity 0, Net Debt -50, Net Income 20)
screens true: Net Debt / 0 is negative infinity, below 1, and
Net Income / 0 is positive infinity, above 0.15. -/
theorem growth_zero_denominator_row_true :
    rowE2.stockholdersEquity = some 0
    ∧ get_growth_filter [rowE1, rowE2] = [false, true] := by
  refine ⟨rfl, ?_⟩
  norm_num [get_growth_filter, rowPasses, rowE1, rowE2, ogt, olt, pgt, plt,
    pdiv, omul, Option.bind]

/-- Claim C3 (amended): if any ratio criterion of the growth screen has a
null numerator or a null denominator, the row screens false; the evaluation
is a total function, so no arithmetic exception can arise.  (A zero
denominator also raises nothing, but it yields an infinite ratio and the row
may screen true, as the counterexample shows.) -/
theorem growth_null_data_row_false (rows : List Row) (i : ℕ) (hi : i < rows.length)
    (h : (rows.get ⟨i, hi⟩).operatingIncome = none ∨ (rows.get ⟨i, hi⟩).ebitda = none ∨
      (rows.get ⟨i, hi⟩).netDebt = none ∨ (rows.get ⟨i, hi⟩).netIncome = none ∨
      (rows.get ⟨i, hi⟩).sga = none ∨ (rows.get ⟨i, hi⟩).capex = none ∨
      (rows.get ⟨i, hi⟩).totalRevenue = none ∨
      (rows.get ⟨i, hi⟩).stockholdersEquity = none) :
    (get_growth_filter rows).getD i true = false := by
  rw [get_growth_filter,
    getD_zipWith_rowPasses (none :: rows.map some) rows i hi (by simp; omega)]
  apply rowPasses_null
  have hd : rows.getD i { ticker := "", period := "" } = rows.get ⟨i, hi⟩ := by
    rw [List.getD_eq_getElem _ _ hi, List.get_eq_getElem]
  rw [hd]
  exact h

/-- Witness for C3: the row with a missing Operating Income screens false. -/
theorem growth_null_data_row_false_witness :
    (get_growth_filter [rowNullOpInc]).getD 0 true = false :=
  growth_null_data_row_false [rowNullOpInc] 0 (by decide) (Or.inl rfl)

/-- Claim C4 counterexample: an unavailable S&P 500 source was claimed to
contribute an empty list without aborting, but fetch_sp500_tickers has no
exception handler: a failed fetch propagates the exception and never returns
a list. -/
theorem sp500_failure_aborts :
    fetch_sp500_tickers FetchResult.fail = Except.error "ConnectionError"
    ∧ ¬ ∃ l, fetch_sp500_tickers FetchResult.fail = Except.ok l := by
  refine ⟨rfl, ?_⟩
  rintro ⟨l, h⟩
  simp [fetch_sp500_tickers] at h

/-- Claim C4 (amended): only the Dow Jones source follows the stated failure
policy — a failed fetch or a non-200 status yields the empty list and the
run proceeds — while a failed S&P 500 fetch propagates the exception and
aborts the module-level pipeline. -/
theorem source_failure_policy :
    get_dow_jones_tickers FetchResult.fail = []
    ∧ (∀ status table, status ≠ 200 →
        get_dow_jones_tickers (FetchResult.ok status table) = [])
    ∧ fetch_sp500_tickers FetchResult.fail = Except.error "ConnectionError" := by
  refine ⟨rfl, ?_, rfl⟩
  intro status table hs
  rw [get_dow_jones_tickers.eq_def]
  dsimp only
  rw [if_neg hs]

/-- Witness for C4: a 500 status from the Dow Jones page yields []. -/
theorem source_failure_policy_witness :
    get_dow_jones_tickers (FetchResult.ok 500 none) = [] :=
  source_failure_policy.2.1 500 none (by decide)

/-- Claim C5 counterexample: the normalized universe was claimed to hold each
symbol exactly once for arbitrary inputs, but when the raw sources contain
both BRK.B and BRK-B the two distinct raw symbols normalize to the same
string, which then appears twice. -/
theorem universe_duplicate_after_normalization :
    (normalizedUniverse [["BRK.B", "BRK-B"]]).count "BRK-B" = 2 := by decide

/-- Claim C5 (amended): provided no two distinct raw symbols normalize to the
same string (true of the worked example), the universe is exactly the set of
normalized symbols of the union of the sources, each exactly once, with
remapped symbols replaced and all others passed through; and the inputs
AAPL+MSFT, MSFT, BRK.B yield exactly the set AAPL, MSFT, BRK-B. -/
theorem universe_union_normalized :
    (∀ (lists : List (List String)),
        (∀ a b, a ∈ lists.flatten → b ∈ lists.flatten →
          normalizeTicker a = normalizeTicker b → a = b) →
        ((∀ s, s ∈ normalizedUniverse lists ↔
            ∃ raw, raw ∈ lists.flatten ∧ normalizeTicker raw = s)
          ∧ (normalizedUniverse lists).Nodup))
    ∧ (∀ s, s ∈ normalizedUniverse [["AAPL", "MSFT"], ["MSFT"], ["BRK.B"]] ↔
        (s = "AAPL" ∨ s = "MSFT" ∨ s = "BRK-B")) := by
  constructor
  · intro lists hinj
    constructor
    · intro s
      rw [normalizedUniverse, merge_and_deduplicate_dynamic, List.mem_map]
      constructor
      · rintro ⟨raw, hmem, hn⟩
        exact ⟨raw, (mem_pyDedup raw lists.flatten).mp hmem, hn⟩
      · rintro ⟨raw, hmem, hn⟩
        exact ⟨raw, (mem_pyDedup raw lists.flatten).mpr hmem, hn⟩
    · rw [normalizedUniverse, merge_and_deduplicate_dynamic]
      refine List.Nodup.map_on ?_ (nodup_pyDedup lists.flatten)
      intro x hx y hy hxy
      exact hinj x y ((mem_pyDedup x _).mp hx) ((mem_pyDedup y _).mp hy) hxy
  · have hconc : normalizedUniverse [["AAPL", "MSFT"], ["MSFT"], ["BRK.B"]]
        = ["AAPL", "MSFT", "BRK-B"] := by decide
    intro s
    rw [hconc]
    simp

/-- Witness for C5 at a one-source input. -/
theorem universe_union_normalized_witness :
    ("AAPL" ∈ normalizedUniverse [["AAPL"]]) ∧ (normalizedUniverse [["AAPL"]]).Nodup := by
  have h := universe_union_normalized.1 [["AAPL"]]
    (by intro a b ha hb _; simp at ha hb; rw [ha, hb])
  exact ⟨(h.1 "AAPL").mpr ⟨"AAPL", by simp, by decide⟩, h.2⟩

/-- Claim C6 (confirmed): a ticker is selected exactly when some row of the
table carries that ticker and passes the growth filter, and the selected
list holds no duplicates. -/
theorem selected_tickers_spec (rows : List Row) (t : String) :
    (t ∈ selected_tickers rows ↔
      ∃ r : Row, (r, true) ∈ rows.zip (get_growth_filter rows) ∧ r.ticker = t)
    ∧ (selected_tickers rows).Nodup := by
  constructor
  · rw [selected_tickers, mem_pyDedup, passingTickers, List.mem_filterMap]
    constructor
    · rintro ⟨⟨r, b⟩, hmem, hf⟩
      cases b with
      | false => simp at hf
      | true => exact ⟨r, hmem, by simpa using hf⟩
    · rintro ⟨r, hmem, ht⟩
      exact ⟨(r, true), hmem, by simpa using ht⟩
  · exact nodup_pyDedup _

/-- Claim C7 (confirmed): whenever every reported market cap is positive, the
calculator returns the included tickers paired with
round2 of 100 times cap over total, a ticker with an unavailable cap never
appears in the output, and the worked example A:100, B:300 yields exactly
A at 25.00 and B at 75.00. -/
theorem market_cap_weights_spec :
    (∀ (info : String → Option ℤ) (tickers : List String),
        (∀ t c, info t = some c → 0 < c) →
        ∃ l, calculate_market_cap_weights info tickers = Except.ok l
          ∧ (∀ t c, t ∈ tickers → info t = some c →
              (t, round2 ((c : ℚ) / ((totalCap info tickers : ℤ) : ℚ) * 100)) ∈ l)
          ∧ (∀ t, info t = none → ∀ w, (t, w) ∉ l))
    ∧ calculate_market_cap_weights capsAB ["A", "B"] = Except.ok [("A", 25), ("B", 75)] := by
  constructor
  · intro info tickers hpos
    by_cases hemp : includedCaps info tickers = []
    · refine ⟨[], ?_, ?_, ?_⟩
      · rw [calculate_market_cap_weights]
        simp [hemp]
      · intro t c ht hc
        have hc0 : c ≠ 0 := ne_of_gt (hpos t c hc)
        have hmem := mem_includedCaps info tickers t c ht hc hc0
        rw [hemp] at hmem
        simp at hmem
      · intro t _ w h
        simp at h
    · have hposall : ∀ e ∈ includedCaps info tickers, 0 < e.2 := by
        intro e he
        rcases List.mem_filterMap.mp he with ⟨a, _, hfa⟩
        rcases capEntry_eq_some info a e hfa with ⟨_, hinfo, _⟩
        exact hpos a e.2 hinfo
      have htot : 0 < totalCap info tickers := by
        rw [totalCap]
        apply List.sum_pos
        · intro x hx
          rcases List.mem_map.mp hx with ⟨e, he, hex⟩
          exact hex ▸ hposall e he
        · simp [hemp]
      refine ⟨(includedCaps info tickers).map
          (fun e => (e.1, round2 ((e.2 : ℚ) / (totalCap info tickers : ℚ) * 100))), ?_, ?_, ?_⟩
      · rw [calculate_market_cap_weights]
        simp only [List.isEmpty_iff]
        rw [if_neg hemp, if_neg (ne_of_gt htot)]
      · intro t c ht hc
        have hc0 : c ≠ 0 := ne_of_gt (hpos t c hc)
        exact List.mem_map.mpr ⟨(t, c), mem_includedCaps info tickers t c ht hc hc0, rfl⟩
      · intro t hnone w hmem
        rcases List.mem_map.mp hmem with ⟨e, he, hew⟩
        rcases List.mem_filterMap.mp he with ⟨a, _, hfa⟩
        rcases capEntry_eq_some info a e hfa with ⟨he1, hinfo, _⟩
        have het : e.1 = t := congrArg Prod.fst hew
        rw [het] at he1
        rw [← he1, hnone] at hinfo
        exact Option.noConfusion hinfo
  · have h1 : includedCaps capsAB ["A", "B"] = [("A", 100), ("B", 300)] := by decide
    have h2 : totalCap capsAB ["A", "B"] = 400 := by simp [totalCap, h1]
    simp [calculate_market_cap_weights, h1, h2]
    norm_num [round2, roundHalfEven, Int.fract, round_eq]

/-- Witness for C7 at the single ticker A with cap 100. -/
theorem market_cap_weights_spec_witness :
    ∃ l, calculate_market_cap_weights (fun _ => some 100) ["A"] = Except.ok l
      ∧ ("A", round2 ((100 : ℚ) / ((totalCap (fun _ => some 100) ["A"] : ℤ) : ℚ) * 100)) ∈ l := by
  obtain ⟨l, h1, h2, _⟩ := market_cap_weights_spec.1 (fun _ => some 100) ["A"]
    (fun t c hc => by cases hc; norm_num)
  exact ⟨l, h1, h2 "A" 100 (by simp) rfl⟩

/-- Claim C8 (confirmed): for a single ticker X with one period P and income
statement values Total Revenue 100 and Operating Income 20, the combined
table is exactly one row, with Ticker X, Period P and those two values. -/
theorem assembler_single_ticker :
    fetch_fundamental_data [statementsX]
      = [{ ticker := "X", period := "P",
           values := [("Total Revenue", (100 : ℚ)), ("Operating Income", 20)] }] := by
  rfl

/-- Claim C9 (confirmed): a ticker whose reported market cap is exactly 0 is
skipped by the truthiness test: it never enters the cap dict, removing it
from the input changes neither the dict nor the denominator sum, and it
never appears in the output pairs. -/
theorem zero_market_cap_excluded (info : String → Option ℤ) (tickers : List String)
    (t : String) (h : info t = some 0) :
    (∀ e ∈ includedCaps info tickers, e.1 ≠ t)
    ∧ includedCaps info (tickers.filter (fun s => s ≠ t)) = includedCaps info tickers
    ∧ totalCap info (tickers.filter (fun s => s ≠ t)) = totalCap info tickers
    ∧ (∀ l, calculate_market_cap_weights info tickers = Except.ok l →
        ∀ w, (t, w) ∉ l) := by
  have hentry : capEntry info t = none := by
    rw [capEntry, h]
    dsimp only
    rw [if_pos rfl]
  have hmem : ∀ e ∈ includedCaps info tickers, e.1 ≠ t := by
    intro e he het
    rcases List.mem_filterMap.mp he with ⟨a, _, hfa⟩
    rcases capEntry_eq_some info a e hfa with ⟨he1, _, _⟩
    rw [het] at he1
    rw [← he1, hentry] at hfa
    exact Option.noConfusion hfa
  have hfilter : includedCaps info (tickers.filter (fun s => s ≠ t))
      = includedCaps info tickers := by
    rw [includedCaps, includedCaps, pyDedup_filter]
    apply filterMap_filter_of_none
    intro a ha
    have hat : a = t := by simpa using ha
    rw [hat]
    exact hentry
  refine ⟨hmem, hfilter, by rw [totalCap, totalCap, hfilter], ?_⟩
  intro l hok w hwl
  rw [calculate_market_cap_weights] at hok
  by_cases hemp : (includedCaps info tickers).isEmpty
  · rw [if_pos hemp] at hok
    cases hok
    simp at hwl
  · rw [if_neg hemp] at hok
    by_cases htot : totalCap info tickers = 0
    · rw [if_pos htot] at hok; exact Except.noConfusion hok
    · rw [if_neg htot] at hok
      cases hok
      rcases List.mem_map.mp hwl with ⟨e, he, hew⟩
      exact hmem e he (congrArg Prod.fst hew)

/-- Witness for C9: with every cap reported as 0, filtering ticker A out of
the input leaves the cap dict unchanged. -/
theorem zero_market_cap_excluded_witness :
    includedCaps (fun _ => some 0) (["A"].filter (fun s => s ≠ "A"))
      = includedCaps (fun _ => some 0) ["A"] :=
  (zero_market_cap_excluded (fun _ => some 0) ["A"] "A" rfl).2.1

/-- Claim C10 (confirmed): when no input ticker has an available nonzero
market cap — in particular for the empty input — the cap dict is empty, the
comprehension performs no division, and the result is the empty list rather
than a ZeroDivisionError. -/
theorem no_caps_ok_empty (info : String → Option ℤ) (tickers : List String)
    (h : ∀ s ∈ tickers, capEntry info s = none) :
    calculate_market_cap_weights info tickers = Except.ok [] := by
  have hemp : includedCaps info tickers = [] := by
    rw [includedCaps, List.filterMap_eq_nil_iff]
    intro a ha
    exact h a ((mem_pyDedup a tickers).mp ha)
  rw [calculate_market_cap_weights]
  simp [hemp]

/-- Witness for C10 at the empty ticker list. -/
theorem no_caps_ok_empty_witness :
    calculate_market_cap_weights (fun _ => none) [] = Except.ok [] :=
  no_caps_ok_empty (fun _ => none) [] (by simp)

end Strategies
